import Mathlib

/-!
Shallow embedding of the `xlsxpandas` layout library
(`src/xlsxpandas/drawer.py`, `src/xlsxpandas/elements.py`) and proofs about
its drawing operations.

Coordinates are integers (Python ints); column widths and paddings are
rationals (Python floats are modelled exactly by `ℚ`); the side effects of a
draw call on the worksheet are reified as a trace of `Action`s.
-/

namespace Xlsxpandas

/-- Python scalar values that appear as element contents in the claims:
`None`, strings and integers. (Tuples, used only by the rich-string write
path, are not exercised by any claim and are not modelled.) -/
inductive PyVal where
  | none
  | str (s : String)
  | int (n : Int)
  deriving DecidableEq, Repr

deriving instance DecidableEq for Except

/-- Python exceptions raised by the embedded code paths. -/
inductive PyErr where
  | valueError
  | typeError
  | attributeError
  | indexError
  | keyError
  | nameError
  deriving DecidableEq, Repr

/-- The `col_width` attribute of an element: a float, a string
(`'auto'` is the meaningful one) or `None`, exactly as validated by the
`col_width` setter in `elements.py`. -/
inductive ColWidth where
  | float (q : ℚ)
  | str (s : String)
  | none
  deriving DecidableEq, Repr

/-- Worksheet side effects issued while drawing (`xlsxwriter` calls).
`mergeRange` records the rectangle that the source passes as an A1-style
range string; `setColumn` records the `ws.set_column(first, last, width)`
call; `setRow` records `ws.set_row(row, height)`. -/
inductive Action where
  | mergeRange (x1 y1 x2 y2 : Int)
  | write (x y : Int) (v : PyVal)
  | writeComment (x y : Int) (c : String)
  | setColumn (first last : Int) (w : ℚ)
  | setRow (r : Int) (h : ℚ)
  deriving DecidableEq, Repr

/-- Whether an action is a `set_column` call. -/
def Action.isSetColumn : Action → Bool
  | Action.setColumn _ _ _ => true
  | _ => false

/-- `str(value)` for the modelled scalar values (Python `str`). -/
def pyStr : PyVal → String
  | PyVal.none => "None"
  | PyVal.str s => s
  | PyVal.int n => toString n

/-- The local helper `vlen` of `Element.draw` / `Series.draw`:
`len(str(value))` if the value is not `None`, else `None`. -/
def vlen : PyVal → Option Nat
  | PyVal.none => Option.none
  | v => some (pyStr v).length

/-- An atomic report element (`elements.py`, class `Element`).
Styles are opaque to every claim and are omitted; `writeMethod`
is kept as data (the rich-string branch of `draw` is vacuous here
because tuple values are not modelled). Constructor defaults follow
`Element.__init__`. -/
structure Element where
  value : PyVal
  height : Nat := 1
  width : Nat := 1
  comment : Option String := Option.none
  writeMethod : String := "write"
  colWidth : ColWidth := ColWidth.none
  padding : ℚ := 2
  deriving DecidableEq, Repr

instance : Inhabited Element := ⟨{ value := PyVal.none }⟩

/-- The write/merge/comment part of `Element.draw` (`elements.py` lines
234-245): merge the spanned range when the element covers more than one
cell, write the value, then attach the comment if present. -/
def elementBaseActions (e : Element) (x y : Int) : List Action :=
  (if 1 < e.width ∨ 1 < e.height then
      [Action.mergeRange x y (x + e.height - 1) (y + e.width - 1)]
    else [])
  ++ [Action.write x y e.value]
  ++ (match e.comment with
      | some c => [Action.writeComment x y c]
      | Option.none => [])

/-- `Element.draw` (`elements.py` lines 206-266).  After writing, the column
width adjustment runs: a float `col_width` is used as is; `'auto'` computes
`float(vlen(value) + padding * 2) / width`, and the `TypeError` raised by
`None + float` makes the method return without touching the columns; a
string other than `'auto'` raises `ValueError`; `None` skips the step.  The
final call is `ws.set_column(y, y + width - 1, col_width / width)`. -/
def Element.draw (e : Element) (x y : Int) : Except PyErr (List Action) :=
  match e.colWidth with
  | ColWidth.float q =>
      Except.ok (elementBaseActions e x y ++
        [Action.setColumn y (y + e.width - 1) (q / (e.width : ℚ))])
  | ColWidth.str s =>
      if s = "auto" then
        match vlen e.value with
        | Option.none => Except.ok (elementBaseActions e x y)
        | some L => Except.ok (elementBaseActions e x y ++
            [Action.setColumn y (y + e.width - 1)
              (((L : ℚ) + e.padding * 2) / (e.width : ℚ) / (e.width : ℚ))])
      else Except.error PyErr.valueError
  | ColWidth.none => Except.ok (elementBaseActions e x y)

/-! ## Drawer (`drawer.py`) -/

/-- Appending to a `collections.deque` with a maximum length `maxlen`:
the new item goes to the right and, once the length would exceed
`maxlen`, the oldest items fall off the left. -/
def dequeAppend (maxlen : Nat) (q : List Nat) (v : Nat) : List Nat :=
  let q' := q ++ [v]
  if maxlen < q'.length then q'.drop (q'.length - maxlen) else q'

/-- The drawing cursor (`drawer.py`, class `Drawer`).  The worksheet and
workbook handles are external objects written to only through the reified
`Action` traces, so they carry no state here; `naRep` is the `na_rep`
string. `widths`/`heights` are the bounded deques of extents of previously
drawn elements, most recent last; `memlen` is their shared capacity. -/
structure Drawer where
  x : Int
  y : Int
  widths : List Nat
  heights : List Nat
  memlen : Nat
  checkpoints : List (String × Int × Int)
  naRep : String
  deriving DecidableEq, Repr

/-- `Drawer.__init__(ws, wb, x, y, na_rep, memlen)`: empty history deques,
no checkpoints. -/
def Drawer.init (x y : Int) (memlen : Nat) : Drawer :=
  { x := x, y := y, widths := [], heights := [], memlen := memlen,
    checkpoints := [], naRep := "" }

/-- `Drawer.draw`: delegate to the element's draw at the current position,
then append its width and height to the bounded history. An exception
from the element's draw propagates before the history is touched. -/
def Drawer.draw (d : Drawer) (e : Element) : Except PyErr (Drawer × List Action) :=
  match e.draw d.x d.y with
  | Except.error er => Except.error er
  | Except.ok acts =>
      Except.ok ({ d with
        widths := dequeAppend d.memlen d.widths e.width,
        heights := dequeAppend d.memlen d.heights e.height }, acts)

/-- Draw a sequence of elements, threading the drawer state. -/
def Drawer.drawMany : Drawer → List Element → Except PyErr Drawer
  | d, [] => Except.ok d
  | d, e :: es =>
      match d.draw e with
      | Except.error er => Except.error er
      | Except.ok (d', _) => d'.drawMany es

/-- `Drawer.move(x, y)`: unchecked shifts of both coordinates. -/
def Drawer.move (d : Drawer) (mx my : Int) : Drawer :=
  { d with x := d.x + mx, y := d.y + my }

/-- `Drawer.width(n)`: `self.widths[-(1 + n)]`, i.e. the width recorded
`n` steps before the most recent one; `IndexError` when the bounded
history holds no such entry. -/
def Drawer.widthN (d : Drawer) (n : Nat) : Except PyErr Nat :=
  if h : n < d.widths.length then
    Except.ok (d.widths.get ⟨d.widths.length - 1 - n, by omega⟩)
  else Except.error PyErr.indexError

/-- `Drawer.height(n)`: as `Drawer.width(n)` on the heights deque. -/
def Drawer.heightN (d : Drawer) (n : Nat) : Except PyErr Nat :=
  if h : n < d.heights.length then
    Except.ok (d.heights.get ⟨d.heights.length - 1 - n, by omega⟩)
  else Except.error PyErr.indexError

/-- `Drawer.move_horizontal(back)`: move right by `width(1)` when `back`
else by `width(0)`; a history underflow propagates with the position
unchanged. -/
def Drawer.moveHorizontal (d : Drawer) (back : Bool) : Drawer × Option PyErr :=
  match d.widthN (if back then 1 else 0) with
  | Except.error e => (d, some e)
  | Except.ok w => (d.move 0 (w : Int), Option.none)

/-- `Drawer.move_vertical(back)`: move down by `height(1)` when `back`
else by `height(0)`. -/
def Drawer.moveVertical (d : Drawer) (back : Bool) : Drawer × Option PyErr :=
  match d.heightN (if back then 1 else 0) with
  | Except.error e => (d, some e)
  | Except.ok h => (d.move (h : Int) 0, Option.none)

/-- `Drawer.add_checkpoint(name)`: store the current position under the
name; a later entry with the same name shadows the older one on lookup,
matching assignment into the `OrderedDict`. -/
def Drawer.addCheckpoint (d : Drawer) (name : String) : Drawer :=
  { d with checkpoints := (name, d.x, d.y) :: d.checkpoints }

/-- `Drawer.reset(x, y, checkpoint)`: with a checkpoint name, each
coordinate whose argument is not `None` is restored from the stored pair
(`KeyError` if the name is unknown and some assignment is attempted);
without one, each non-`None` argument is assigned directly. -/
def Drawer.reset (d : Drawer) (xo yo : Option Int) (checkpoint : Option String) :
    Except PyErr Drawer :=
  match checkpoint with
  | some cp =>
      if xo.isSome ∨ yo.isSome then
        match d.checkpoints.lookup cp with
        | Option.none => Except.error PyErr.keyError
        | some (cx, cy) =>
            Except.ok { d with
              x := if xo.isSome then cx else d.x,
              y := if yo.isSome then cy else d.y }
      else Except.ok d
  | Option.none =>
      Except.ok { d with x := xo.getD d.x, y := yo.getD d.y }

/-! ## Excel address notation

Modelled from the spec: the conversions between `(row, column)` grid
coordinates and the A1-style address notation are performed by utility
functions of the external writer library whose code is not under `src/`;
the spec describes them as converting `(x, y)` to/from the target
format's address notation (column letters in bijective base 26 followed
by the 1-based row number).  Addresses are modelled as lists of character
codes (`'A'` = 65, ..., `'Z'` = 90, `'0'` = 48, ..., `'9'` = 57). -/

/-- Letter codes of the column name for the 1-based column number `n`
(bijective base 26), computed with explicit fuel so that the kernel can
evaluate it.  Modelled from the spec: the `remainder` loop of the
writer library's column-name utility. -/
def xlColNameAux : Nat → Nat → List Nat
  | 0, _ => []
  | _ + 1, 0 => []
  | fuel + 1, n + 1 =>
      xlColNameAux fuel
          ((n + 1 - (if (n + 1) % 26 = 0 then 26 else (n + 1) % 26)) / 26)
        ++ [64 + (if (n + 1) % 26 = 0 then 26 else (n + 1) % 26)]

/-- Column letters for the 0-based column index `col`. -/
def xlColName (col : Nat) : List Nat :=
  xlColNameAux (col + 1) (col + 1)

/-- Decimal digit codes of `n`, most significant first (fueled).
Modelled from the spec: `str(row + 1)`. -/
def natDigitsAux : Nat → Nat → List Nat
  | 0, _ => []
  | _ + 1, 0 => []
  | fuel + 1, n + 1 =>
      natDigitsAux fuel ((n + 1) / 10) ++ [48 + (n + 1) % 10]

/-- Digit codes of the 1-based row number for the 0-based row index. -/
def xlRowName (row : Nat) : List Nat :=
  natDigitsAux (row + 1) (row + 1)

/-- Modelled from the spec: `xl_rowcol_to_cell(row, col)` — the column
letters followed by the 1-based row number. -/
def xlRowcolToCell (row col : Nat) : List Nat :=
  xlColName col ++ xlRowName row

/-- Is the character code an upper-case letter (`A`-`Z`)? -/
def isUpperCode (c : Nat) : Bool := 65 ≤ c ∧ c ≤ 90

/-- Value of a column-letter run: fold `acc * 26 + (code - 64)`. -/
def lettersVal (l : List Nat) : Nat :=
  l.foldl (fun a c => a * 26 + (c - 64)) 0

/-- Value of a digit run: fold `acc * 10 + (code - 48)`. -/
def digitsVal (l : List Nat) : Nat :=
  l.foldl (fun a c => a * 10 + (c - 48)) 0

/-- Modelled from the spec: `xl_cell_to_rowcol(cell)` — split the address
into its leading letter run and trailing digit run and return the 0-based
`(row, col)` pair. -/
def xlCellToRowcol (cell : List Nat) : Nat × Nat :=
  let letters := cell.takeWhile isUpperCode
  let digits := cell.dropWhile isUpperCode
  (digitsVal digits - 1, lettersVal letters - 1)

/-- A well-formed A1-style cell address: a nonempty letter run followed by
a nonempty digit run. -/
def validXlCell (cell : List Nat) : Bool :=
  let letters := cell.takeWhile isUpperCode
  let digits := cell.dropWhile isUpperCode
  letters ≠ [] ∧ digits ≠ [] ∧ digits.all (fun c => 48 ≤ c ∧ c ≤ 57)

/-- `Drawer.xl_position(x, y)`: the address of the shifted current
position.  The writer utility does not terminate on negative
coordinates, so the model clamps through `Int.toNat`; the claims only
use nonnegative positions. -/
def Drawer.xlPosition (d : Drawer) (dx dy : Int) : List Nat :=
  xlRowcolToCell (d.x + dx).toNat (d.y + dy).toNat

/-- `Drawer.xl2coords(rng)`: static translation of an address to matrix
coordinates. -/
def Drawer.xl2coords (cell : List Nat) : Nat × Nat :=
  xlCellToRowcol cell

/-- Python attribute assignment on a `Drawer`: the class declares `x`,
`y`, `widths` and `heights` as getter-only properties, so assigning to
them raises `AttributeError` and mutates nothing; `ws`, `wb` and
`na_rep` do have setters (their validated assignment stores an object
outside this model, so the state is returned unchanged here). -/
def Drawer.setattr (d : Drawer) (attr : String) (_v : Int) : Drawer × Option PyErr :=
  if attr = "x" ∨ attr = "y" ∨ attr = "widths" ∨ attr = "heights" then
    (d, some PyErr.attributeError)
  else (d, Option.none)

/-- `Drawer.xl_set(rng)`: `self.x, self.y = self.xl2coords(rng)` — the
right-hand side is evaluated, then the tuple assignment assigns `self.x`
first and `self.y` second, stopping at the first exception. -/
def Drawer.xlSet (d : Drawer) (cell : List Nat) : Drawer × Option PyErr :=
  let rc := Drawer.xl2coords cell
  let (d1, e1) := d.setattr "x" (rc.1 : Int)
  match e1 with
  | some e => (d1, some e)
  | Option.none => d1.setattr "y" (rc.2 : Int)

/-! ## Series and DataFrame (`elements.py`) -/

/-- A cell write performed while drawing a container: the element `elem`
is drawn with its upper-left corner at row `x`, column `y`. -/
structure Placement where
  x : Int
  y : Int
  elem : Element
  deriving DecidableEq, Repr

instance : Inhabited Placement := ⟨⟨0, 0, default⟩⟩

/-- A series of elements (`elements.py`, class `Series`) after
construction: the member elements in index order, the optional name
element, and the orientation flag.  Constructor normalisation (wrapping
raw values, first/last styling) happens before any state the claims
observe and is not modelled. -/
structure Series where
  elements : List Element
  name : Option Element := Option.none
  horizontal : Bool := false
  deriving DecidableEq, Repr

/-- The member loop of `Series.draw` (`elements.py` lines 498-511):
each iteration calls the member's `Element.draw` at the running
position, then advances `y` by the element's width when horizontal and
`x` by its height when vertical.  An exception from a member's draw
(e.g. the `ValueError` for a non-`'auto'` string `col_width`) aborts
the loop: later members are never drawn and the error propagates.  On
success, returns the placements together with the final `(x, y)`. -/
def drawRun (horizontal : Bool) : List Element → Int → Int →
    Except PyErr (List Placement × Int × Int)
  | [], x, y => Except.ok ([], x, y)
  | e :: es, x, y =>
      match e.draw x y with
      | Except.error er => Except.error er
      | Except.ok _ =>
          match (if horizontal then drawRun horizontal es x (y + (e.width : Int))
                 else drawRun horizontal es (x + (e.height : Int)) y) with
          | Except.error er => Except.error er
          | Except.ok r => Except.ok (⟨x, y, e⟩ :: r.1, r.2)

/-- `Series.draw(x, y, ws, wb, na_rep, draw_name)` member placements
(`elements.py` lines 498-511): the name element is drawn first when
`draw_name` is set and a name exists, shifting the start of the member
run by its extent along the orientation axis; an exception from the
name's or any member's draw aborts the method.  The column-width
epilogue (lines 513-540) issues only `set_column`/`set_row` actions and
no cell placements; no claim observes it for series, so it is not
modelled. -/
def Series.draw (s : Series) (x y : Int) (drawName : Bool) :
    Except PyErr (List Placement × Int × Int) :=
  if s.horizontal then
    match s.name, drawName with
    | some nm, true =>
        match nm.draw x y with
        | Except.error er => Except.error er
        | Except.ok _ =>
            match drawRun true s.elements x (y + (nm.width : Int)) with
            | Except.error er => Except.error er
            | Except.ok r => Except.ok (⟨x, y, nm⟩ :: r.1, r.2)
    | _, _ => drawRun true s.elements x y
  else
    match s.name, drawName with
    | some nm, true =>
        match nm.draw x y with
        | Except.error er => Except.error er
        | Except.ok _ =>
            match drawRun false s.elements (x + (nm.height : Int)) y with
            | Except.error er => Except.error er
            | Except.ok r => Except.ok (⟨x, y, nm⟩ :: r.1, r.2)
    | _, _ => drawRun false s.elements x y

/-- Width of the name element when it is actually drawn
(`draw_name and self.name`), else 0. -/
def Series.nameWidth (s : Series) (drawName : Bool) : Nat :=
  match s.name, drawName with
  | some nm, true => nm.width
  | _, _ => 0

/-- Number of leading name placements (1 when the name is drawn). -/
def Series.nameCount (s : Series) (drawName : Bool) : Nat :=
  match s.name, drawName with
  | some _, true => 1
  | _, _ => 0

/-- `pandas` max over a list of naturals (`Series.max()`); the claims
only concern nonempty frames, where this is the maximum element. -/
def pdMax (l : List Nat) : Nat := l.foldl max 0

/-- A data frame of elements (`elements.py`, class `DataFrame`) as its
rows of cells, row-major, in stored row/column order. -/
structure DataFrame where
  rows : List (List Element)
  deriving DecidableEq, Repr

/-- Column `j` of the frame (the cells `rows[i][j]` in row order);
pandas frames are rectangular, so the default is never hit on the
frames the claims quantify over. -/
def colOf (rows : List (List Element)) (j : Nat) : List Element :=
  rows.map (fun r => r.getD j default)

/-- Number of columns of the frame. -/
def DataFrame.ncols (df : DataFrame) : Nat := (df.rows.headD []).length

/-- `DataFrame.width` (`elements.py` lines 554-557):
`self.apply(lambda x: sum(y.width for y in x), axis=1).max()` — the
maximum over rows of the summed member widths. -/
def DataFrame.width (df : DataFrame) : Nat :=
  pdMax (df.rows.map (fun r => (r.map Element.width).sum))

/-- `DataFrame.height` (`elements.py` lines 559-562): the same with
`axis=0` — the maximum over columns of the summed member heights. -/
def DataFrame.height (df : DataFrame) : Nat :=
  pdMax ((List.range df.ncols).map
    (fun j => ((colOf df.rows j).map Element.height).sum))

/-! ## Dictionary (`elements.py`) -/

/-- A key spec of a dictionary entry: the mapping passed to
`Element(**elem['key'])`, with the `Element` constructor defaults for
absent fields. -/
structure KeySpec where
  value : PyVal
  height : Nat := 1
  width : Nat := 1
  deriving DecidableEq, Repr

/-- A value spec's `value` field: a scalar or a list of scalars.
(List members that are themselves mappings merge into the spec; no claim
exercises that branch and it is not modelled.) -/
inductive SpecVal where
  | scalar (v : PyVal)
  | vlist (vs : List PyVal)
  deriving DecidableEq, Repr

/-- A value spec of a dictionary entry (`elem['value']`). -/
structure ValSpec where
  value : SpecVal
  height : Nat := 1
  width : Nat := 1
  deriving DecidableEq, Repr

/-- One entry of the dictionary structure, with its optional per-entry
spacing overrides. -/
structure Entry where
  key : KeySpec
  value : ValSpec
  vspace : Option Nat := Option.none
  hspace : Option Nat := Option.none
  deriving DecidableEq, Repr

/-- The key/value layout (`elements.py`, class `Dictionary`). `struct`
is the `structure` attribute (the word is reserved in Lean); styles are
opaque to the claims and omitted. -/
structure Dictionary where
  struct : List Entry
  hspace : Nat := 1
  vspace : Nat := 0
  context : List (String × PyVal) := []
  deriving DecidableEq, Repr

/-- Split a character list on `'+'`.  Modelled from the spec: the
deferred-expression payloads are evaluated by the host language's
expression evaluator against the context mapping; this embeds the
additive integer/variable fragment the spec exercises. -/
def splitPlus : List Char → List (List Char)
  | [] => [[]]
  | c :: cs =>
      if c = '+' then [] :: splitPlus cs
      else
        match splitPlus cs with
        | t :: ts => (c :: t) :: ts
        | [] => [[c]]

/-- Evaluate one token: a digit run is an integer literal, anything else
is looked up in the context (`NameError` when absent). Modelled from the
spec (see `splitPlus`). -/
def tokVal (ctx : List (String × PyVal)) (t : List Char) : Except PyErr PyVal :=
  if t ≠ [] ∧ t.all Char.isDigit then
    Except.ok (PyVal.int (t.foldl (fun a c => a * 10 + ((c.toNat : Int) - 48)) 0))
  else
    match ctx.lookup (String.mk t) with
    | some v => Except.ok v
    | Option.none => Except.error PyErr.nameError

/-- Modelled from the spec: evaluate an expression string against the
context mapping — a sum of integer literals and context variables; a
single token may also denote a non-integer context value. -/
def pyEval (ctx : List (String × PyVal)) (s : String) : Except PyErr PyVal := do
  let vals ← (splitPlus s.data).mapM (tokVal ctx)
  match vals with
  | [v] => pure v
  | vs => do
      let ns ← vs.mapM (fun v =>
        match v with
        | PyVal.int n => Except.ok n
        | _ => Except.error PyErr.typeError)
      pure (PyVal.int (ns.foldl (· + ·) 0))

/-- The literal deferred-expression marker. -/
def evalMarker : String := "@eval@"

/-- `re.match('^@eval@', x)`: does the string begin with the marker? -/
def hasEvalMarker (s : String) : Bool :=
  evalMarker.data.isPrefixOf s.data

/-- `re.sub('^@eval@', '', x)`: the string with the leading marker
removed. -/
def stripMarker (s : String) : String :=
  String.mk (s.data.drop 6)

/-- `Dictionary._process_value` (`elements.py` lines 901-908): a string
beginning with `@eval@` is stripped of the marker and evaluated against
the context; everything else passes through unchanged. -/
def processValue (ctx : List (String × PyVal)) (x : PyVal) : Except PyErr PyVal :=
  match x with
  | PyVal.str s =>
      if hasEvalMarker s then pyEval ctx (stripMarker s) else Except.ok (PyVal.str s)
  | v => Except.ok v

/-- Build the `Element` drawn for a key spec (`Element(**elem['key'])`)
with the given processed value. -/
def keyElement (k : KeySpec) (v : PyVal) : Element :=
  { value := v, height := k.height, width := k.width }

/-- Build the `Element` drawn for one value
(`Element(**{**elem['value'], 'value': value})`). -/
def valElement (vs : ValSpec) (v : PyVal) : Element :=
  { value := v, height := vs.height, width := vs.width }

/-- The stacked draws of a list-valued entry (`elements.py` lines
942-948): each member is drawn at the running `x` in the value column,
and `x` advances by that member element's height. -/
def placeListVals (vs : ValSpec) : Int → Int → List PyVal → List Placement × Int
  | x, _, [] => ([], x)
  | x, y, v :: rest =>
      let el := valElement vs v
      let r := placeListVals vs (x + (el.height : Int)) y rest
      (⟨x, y, el⟩ :: r.1, r.2)

/-- `Dictionary.draw` (`elements.py` lines 910-954): for each entry the
key and value contents are first resolved through `_process_value`, the
key element is drawn at `(x, y)`, the column advances to
`y + hspace + 1` (a constant offset of one past the hspace, independent
of the key's width), the value or values are drawn there advancing `x`,
the entry's vertical spacing is added to `x`, and `y` falls back to the
starting column. -/
def dictDrawEntries (d : Dictionary) : List Entry → Int → Int → Except PyErr (List Placement)
  | [], _, _ => Except.ok []
  | e :: es, x, y => do
      let kv ← processValue d.context e.key.value
      let pv ← (match e.value.value with
        | SpecVal.vlist vs => (vs.mapM (processValue d.context)).map SpecVal.vlist
        | SpecVal.scalar v => (processValue d.context v).map SpecVal.scalar)
      let kElem := keyElement e.key kv
      let y1 := y + (d.hspace : Int) + 1
      match pv with
      | SpecVal.vlist vs' =>
          let r := placeListVals e.value x y1 vs'
          let x' := r.2 + ((e.vspace.getD d.vspace : Nat) : Int)
          let rest ← dictDrawEntries d es x' y
          Except.ok (⟨x, y, kElem⟩ :: (r.1 ++ rest))
      | SpecVal.scalar v' =>
          let vElem := valElement e.value v'
          let x' := x + (vElem.height : Int) + ((e.vspace.getD d.vspace : Nat) : Int)
          let rest ← dictDrawEntries d es x' y
          Except.ok (⟨x, y, kElem⟩ :: ⟨x, y1, vElem⟩ :: rest)

/-- `Dictionary.draw` at a position. -/
def Dictionary.draw (d : Dictionary) (x y : Int) : Except PyErr (List Placement) :=
  dictDrawEntries d d.struct x y

/-- `Dictionary.width` (`elements.py` lines 808-818): the maximum over
entries of key width + value width + the entry's horizontal spacing. -/
def Dictionary.width (d : Dictionary) : Nat :=
  d.struct.foldl
    (fun acc e => max acc (e.key.width + e.value.width + e.hspace.getD d.hspace)) 0

/-! ## Concrete instances used by counterexamples and witnesses -/

/-- An auto-width element spanning two columns: value `"abcd"`,
`width = 2`, default padding `2.0`. -/
def autoElemCex : Element :=
  { value := PyVal.str "abcd", width := 2, colWidth := ColWidth.str "auto" }

/-- A one-column auto-width element with value `"abc"`. -/
def autoElemOne : Element :=
  { value := PyVal.str "abc", colWidth := ColWidth.str "auto" }

/-- An auto-width element with no value. -/
def autoElemNone : Element :=
  { value := PyVal.none, colWidth := ColWidth.str "auto" }

/-- Plain elements of distinct extents, for history witnesses. -/
def plainElem (w h : Nat) : Element :=
  { value := PyVal.int 7, width := w, height := h }

/-- Three elements drawn through a capacity-2 history. -/
def histElems : List Element := [plainElem 1 1, plainElem 2 3, plainElem 4 5]

/-- The drawer state after drawing `histElems` from a fresh drawer with
`memlen = 2`: only the two most recent extents are retained. -/
def histDrawer : Drawer :=
  { x := 0, y := 0, widths := [2, 4], heights := [3, 5], memlen := 2,
    checkpoints := [], naRep := "" }

/-- A named horizontal series with member widths 2 and 3. -/
def seriesH : Series :=
  { elements := [plainElem 2 1, plainElem 3 1], name := some (plainElem 1 1),
    horizontal := true }

/-- The successful result of drawing `seriesH` at the origin with its
name: the name at column 0, the members at columns 1 and 3, final
position `(0, 6)`. -/
def seriesHRes : List Placement × Int × Int :=
  ([⟨0, 0, plainElem 1 1⟩, ⟨0, 1, plainElem 2 1⟩, ⟨0, 3, plainElem 3 1⟩], 0, 6)

/-- A 2×2 frame: row sums of widths 5 and 2, column sums of heights
5 and 3. -/
def dfW : DataFrame :=
  { rows := [[plainElem 2 1, plainElem 3 2], [plainElem 1 4, plainElem 1 1]] }

/-- A dictionary whose single entry has a key of width 2, with no extra
horizontal spacing. -/
def dictWideKey : Dictionary :=
  { struct := [{ key := { value := PyVal.str "k", width := 2 },
                 value := { value := SpecVal.scalar (PyVal.str "v") } }],
    hspace := 0 }

/-- A dictionary whose single entry carries the deferred expression
`"@eval@1+1"` with an empty context. -/
def dictEval : Dictionary :=
  { struct := [{ key := { value := PyVal.str "k" },
                 value := { value := SpecVal.scalar (PyVal.str "@eval@1+1") } }] }

/-- A dictionary with a marked key, and a list value mixing a marked
member (a context variable) and an unmarked member. -/
def dictEvalList : Dictionary :=
  { struct :=
      [{ key := { value := PyVal.str "@eval@2+3" },
         value :=
           { value := SpecVal.vlist [PyVal.str "@eval@a", PyVal.str "plain"] } }],
    context := [("a", PyVal.int 9)] }

end Xlsxpandas

namespace Xlsxpandas

/-! ## Theorems -/

/-- C1 (amended): for an element with `col_width = 'auto'` and a
non-`None` value, `Element.draw` issues one `set_column` call over the
spanned columns `y .. y + width - 1` whose per-column width is the auto
width `(len(str(value)) + 2 * padding) / width` divided by `width` a
second time (the source passes `col_width / self.width` to `set_column`
after `col_width` was already divided by the element's width). -/
theorem element_auto_col_width (e : Element) (x y : Int)
    (hcw : e.colWidth = ColWidth.str "auto") (hv : e.value ≠ PyVal.none) :
    e.draw x y = Except.ok (elementBaseActions e x y ++
      [Action.setColumn y (y + (e.width : Int) - 1)
        ((((vlen e.value).getD 0 : ℚ) + e.padding * 2) / (e.width : ℚ) / (e.width : ℚ))]) := by
  cases hval : e.value with
  | none => exact absurd hval hv
  | str s => simp [Element.draw, hcw, vlen, hval]
  | int n => simp [Element.draw, hcw, vlen, hval]

/-- C1 witness: the single-column element `autoElemOne` (value `"abc"`,
padding 2) gets one `set_column` call of width `(3 + 4) / 1 / 1 = 7`. -/
theorem element_auto_col_width_witness :
    autoElemOne.draw 0 0 = Except.ok (elementBaseActions autoElemOne 0 0 ++
      [Action.setColumn 0 (0 + ((autoElemOne.width : Nat) : Int) - 1)
        ((((vlen autoElemOne.value).getD 0 : ℚ) + autoElemOne.padding * 2) /
          ((autoElemOne.width : Nat) : ℚ) / ((autoElemOne.width : Nat) : ℚ))]) :=
  element_auto_col_width autoElemOne 0 0 rfl (by decide)

/-- C1 counterexample: for `autoElemCex` (value `"abcd"`, padding 2,
width 2) the issued per-column width is `2`, not the claimed
`(4 + 2*2) / 2 = 4`: the auto width is divided by the element's width
twice, not once. -/
theorem element_auto_col_width_cex :
    autoElemCex.draw 0 0 = Except.ok
      [Action.mergeRange 0 0 0 1, Action.write 0 0 (PyVal.str "abcd"),
       Action.setColumn 0 1 2] ∧
    (2 : ℚ) ≠ (((pyStr autoElemCex.value).length : ℚ) + autoElemCex.padding * 2) /
      ((autoElemCex.width : Nat) : ℚ) := by
  constructor
  · simp only [autoElemCex, Element.draw, vlen, pyStr, elementBaseActions]
    norm_num [String.length]
  · simp only [autoElemCex, pyStr]
    norm_num [String.length]

/-- None of the write/merge/comment actions is a `set_column` call. -/
theorem baseActions_no_setColumn (e : Element) (x y : Int) :
    ∀ a ∈ elementBaseActions e x y, a.isSetColumn = false := by
  intro a ha
  unfold elementBaseActions at ha
  rcases List.mem_append.1 ha with h | h
  · rcases List.mem_append.1 h with h | h
    · split at h
      · rw [List.mem_singleton] at h; subst h; rfl
      · exact absurd h (List.not_mem_nil a)
    · rw [List.mem_singleton] at h; subst h; rfl
  · rcases hcm : e.comment with _ | c <;> rw [hcm] at h
    · exact absurd h (List.not_mem_nil a)
    · rw [List.mem_singleton] at h; subst h; rfl

/-- C10: for an element with `col_width = 'auto'` and `value = None`,
`Element.draw` raises nothing and performs no `set_column` call: the
`TypeError` from the unmeasurable text length is caught and the
adjustment is silently skipped. -/
theorem element_auto_none_skip (e : Element) (x y : Int)
    (hcw : e.colWidth = ColWidth.str "auto") (hv : e.value = PyVal.none) :
    e.draw x y = Except.ok (elementBaseActions e x y) ∧
    ∀ a ∈ elementBaseActions e x y, a.isSetColumn = false := by
  refine ⟨?_, baseActions_no_setColumn e x y⟩
  simp [Element.draw, hcw, hv, vlen]

/-- C10 witness: the concrete element `autoElemNone`. -/
theorem element_auto_none_skip_witness :
    autoElemNone.draw 0 0 = Except.ok (elementBaseActions autoElemNone 0 0) ∧
    ∀ a ∈ elementBaseActions autoElemNone 0 0, a.isSetColumn = false :=
  element_auto_none_skip autoElemNone 0 0 rfl rfl

/-- C3 counterexample: from the origin (a nonnegative position),
`move(-1, 0)` leaves the drawer at `x = -1`: the mutating operations do
not preserve `x ≥ 0`. -/
theorem drawer_nonneg_cex :
    ((Drawer.init 0 0 10).move (-1) 0).x = -1 ∧
    ¬ (0 ≤ ((Drawer.init 0 0 10).move (-1) 0).x) := by
  constructor <;> decide

/-- C3 (amended): the position-mutating operations perform no clamping
or validation, so nonnegativity of `x` and `y` is preserved exactly when
the requested targets are nonnegative: `move` preserves it iff the
shifted coordinates are nonnegative; `draw` never changes the position;
`move_horizontal` / `move_vertical` only add recorded (nonnegative)
extents; `reset` preserves it when the assigned arguments and every
stored checkpoint are nonnegative. -/
theorem drawer_nonneg_preserved (d : Drawer) (hx : 0 ≤ d.x) (hy : 0 ≤ d.y) :
    (∀ mx my : Int, 0 ≤ d.x + mx → 0 ≤ d.y + my →
        0 ≤ (d.move mx my).x ∧ 0 ≤ (d.move mx my).y) ∧
    (∀ e d' acts, d.draw e = Except.ok (d', acts) → d'.x = d.x ∧ d'.y = d.y) ∧
    (∀ b, 0 ≤ (d.moveHorizontal b).1.x ∧ 0 ≤ (d.moveHorizontal b).1.y) ∧
    (∀ b, 0 ≤ (d.moveVertical b).1.x ∧ 0 ≤ (d.moveVertical b).1.y) ∧
    (∀ xo yo cp d',
        (∀ v, xo = some v → 0 ≤ v) → (∀ v, yo = some v → 0 ≤ v) →
        (∀ n cx cy, (n, cx, cy) ∈ d.checkpoints → 0 ≤ cx ∧ 0 ≤ cy) →
        d.reset xo yo cp = Except.ok d' → 0 ≤ d'.x ∧ 0 ≤ d'.y) := by
  refine ⟨?_, ?_, ?_, ?_, ?_⟩
  · intro mx my h1 h2
    exact ⟨h1, h2⟩
  · intro e d' acts h
    cases he : e.draw d.x d.y with
    | error er =>
        simp only [Drawer.draw, he] at h
        cases h
    | ok a =>
        simp only [Drawer.draw, he] at h
        cases h
        exact ⟨rfl, rfl⟩
  · intro b
    cases hw : d.widthN (if b then 1 else 0) with
    | error e => simp only [Drawer.moveHorizontal, hw]; exact ⟨hx, hy⟩
    | ok w =>
        simp only [Drawer.moveHorizontal, hw]
        constructor
        · simpa [Drawer.move] using hx
        · simp only [Drawer.move]
          exact Int.add_nonneg hy (Int.natCast_nonneg w)
  · intro b
    cases hh : d.heightN (if b then 1 else 0) with
    | error e => simp only [Drawer.moveVertical, hh]; exact ⟨hx, hy⟩
    | ok h =>
        simp only [Drawer.moveVertical, hh]
        constructor
        · simp only [Drawer.move]
          exact Int.add_nonneg hx (Int.natCast_nonneg h)
        · simpa [Drawer.move] using hy
  · intro xo yo cp d' hxo hyo hcps h
    cases cp with
    | some name =>
        simp only [Drawer.reset] at h
        by_cases hs : xo.isSome = true ∨ yo.isSome = true
        · rw [if_pos hs] at h
          cases hl : d.checkpoints.lookup name with
          | none => rw [hl] at h; cases h
          | some p =>
              obtain ⟨cx, cy⟩ := p
              rw [hl] at h
              cases h
              obtain ⟨l₁, l₂, heq, -⟩ := List.lookup_eq_some_iff.1 hl
              have hmem : (name, cx, cy) ∈ d.checkpoints := by
                rw [heq]
                exact List.mem_append_right _ (List.mem_cons_self _ _)
              obtain ⟨hcx, hcy⟩ := hcps name cx cy hmem
              constructor
              · by_cases hxs : xo.isSome <;> simp [hxs, hcx, hx]
              · by_cases hys : yo.isSome <;> simp [hys, hcy, hy]
        · rw [if_neg hs] at h
          cases h
          exact ⟨hx, hy⟩
    | none =>
        simp only [Drawer.reset] at h
        cases h
        constructor
        · cases xo with
          | some v => simpa using hxo v rfl
          | none => simpa using hx
        · cases yo with
          | some v => simpa using hyo v rfl
          | none => simpa using hy

/-- C3 witness: a drawer at `(2, 3)` with one checkpoint at `(2, 3)`
keeps nonnegative coordinates under every operation with nonnegative
targets. -/
theorem drawer_nonneg_preserved_witness :
    (∀ mx my : Int,
        0 ≤ ((Drawer.init 2 3 10).addCheckpoint "a").x + mx →
        0 ≤ ((Drawer.init 2 3 10).addCheckpoint "a").y + my →
        0 ≤ (((Drawer.init 2 3 10).addCheckpoint "a").move mx my).x ∧
        0 ≤ (((Drawer.init 2 3 10).addCheckpoint "a").move mx my).y) ∧
    (∀ e d' acts, ((Drawer.init 2 3 10).addCheckpoint "a").draw e = Except.ok (d', acts) →
        d'.x = ((Drawer.init 2 3 10).addCheckpoint "a").x ∧
        d'.y = ((Drawer.init 2 3 10).addCheckpoint "a").y) ∧
    (∀ b, 0 ≤ (((Drawer.init 2 3 10).addCheckpoint "a").moveHorizontal b).1.x ∧
        0 ≤ (((Drawer.init 2 3 10).addCheckpoint "a").moveHorizontal b).1.y) ∧
    (∀ b, 0 ≤ (((Drawer.init 2 3 10).addCheckpoint "a").moveVertical b).1.x ∧
        0 ≤ (((Drawer.init 2 3 10).addCheckpoint "a").moveVertical b).1.y) ∧
    (∀ xo yo cp d',
        (∀ v, xo = some v → 0 ≤ v) → (∀ v, yo = some v → 0 ≤ v) →
        (∀ n cx cy, (n, cx, cy) ∈ ((Drawer.init 2 3 10).addCheckpoint "a").checkpoints →
            0 ≤ cx ∧ 0 ≤ cy) →
        ((Drawer.init 2 3 10).addCheckpoint "a").reset xo yo cp = Except.ok d' →
        0 ≤ d'.x ∧ 0 ≤ d'.y) :=
  drawer_nonneg_preserved ((Drawer.init 2 3 10).addCheckpoint "a") (by decide) (by decide)

/-- One bounded append keeps exactly the last `min (length + 1) m`
pushed values. -/
theorem dequeAppend_drop (m : Nat) (l : List Nat) (a : Nat) :
    dequeAppend m (l.drop (l.length - m)) a = (l ++ [a]).drop (l.length + 1 - m) := by
  have hlen : (l.drop (l.length - m) ++ [a]).length = l.length - (l.length - m) + 1 := by
    simp
  by_cases hm : m ≤ l.length
  · have hlen' : (l.drop (l.length - m) ++ [a]).length = m + 1 := by omega
    simp only [dequeAppend, hlen', if_pos (Nat.lt_succ_self m), Nat.add_sub_cancel_left]
    by_cases hm0 : m = 0
    · subst hm0
      simp [List.drop_of_length_le]
    · have h1m : 1 ≤ (l.drop (l.length - m)).length := by
        simp only [List.length_drop]; omega
      rw [List.drop_append_of_le_length h1m, List.drop_drop,
        List.drop_append_of_le_length (by omega : l.length + 1 - m ≤ l.length)]
      congr 2
      omega
  · have h0 : l.length - m = 0 := by omega
    have h1 : l.length + 1 - m = 0 := by omega
    simp only [dequeAppend, h0, h1, List.drop_zero]
    rw [if_neg (by simp; omega)]

/-- Folding bounded appends from an empty deque keeps the suffix of the
pushed values of length at most the capacity. -/
theorem foldl_dequeAppend (m : Nat) (ws : List Nat) :
    ws.foldl (dequeAppend m) [] = ws.drop (ws.length - m) := by
  induction ws using List.reverseRecOn with
  | nil => simp
  | append_singleton l a ih =>
      rw [List.foldl_append, List.foldl_cons, List.foldl_nil, ih]
      simpa using dequeAppend_drop m l a

/-- A successful `drawMany` threads exactly the bounded appends of the
drawn elements' extents through the history deques. -/
theorem drawMany_state (es : List Element) : ∀ (d d' : Drawer),
    Drawer.drawMany d es = Except.ok d' →
    d'.widths = es.foldl (fun q e => dequeAppend d.memlen q e.width) d.widths ∧
    d'.heights = es.foldl (fun q e => dequeAppend d.memlen q e.height) d.heights ∧
    d'.memlen = d.memlen := by
  induction es with
  | nil =>
      intro d d' h
      simp only [Drawer.drawMany] at h
      cases h
      exact ⟨rfl, rfl, rfl⟩
  | cons e es ih =>
      intro d d' h
      simp only [Drawer.drawMany] at h
      cases he : d.draw e with
      | error er => rw [he] at h; cases h
      | ok p =>
          rw [he] at h
          obtain ⟨d₁, acts⟩ := p
          have hd₁ : d₁.widths = dequeAppend d.memlen d.widths e.width ∧
              d₁.heights = dequeAppend d.memlen d.heights e.height ∧
              d₁.memlen = d.memlen := by
            cases hee : e.draw d.x d.y with
            | error er =>
                simp only [Drawer.draw, hee] at he
                exact Except.noConfusion he
            | ok a =>
                simp only [Drawer.draw, hee] at he
                cases he
                exact ⟨rfl, rfl, rfl⟩
          obtain ⟨h1, h2, h3⟩ := hd₁
          obtain ⟨g1, g2, g3⟩ := ih d₁ d' h
          simp only [List.foldl_cons]
          exact ⟨by rw [g1, h3, h1], by rw [g2, h3, h2], by rw [g3, h3]⟩

/-- C4: after drawing a sequence of elements from a fresh drawer with
history capacity `memlen`, `width(k)` / `height(k)` return the extents
of the element drawn `k` steps before the most recent one for every `k`
below the number of retained entries (`min (number drawn) memlen`, the
oldest entries having been evicted beyond the capacity), and fail with
the out-of-range `IndexError` for every larger `k`. -/
theorem drawer_history (memlen : Nat) (x y : Int) (es : List Element) (d' : Drawer) (k : Nat)
    (h : (Drawer.init x y memlen).drawMany es = Except.ok d') :
    (k < min es.length memlen →
       d'.widthN k = Except.ok ((es.getD (es.length - 1 - k) default).width) ∧
       d'.heightN k = Except.ok ((es.getD (es.length - 1 - k) default).height)) ∧
    (min es.length memlen ≤ k →
       d'.widthN k = Except.error PyErr.indexError ∧
       d'.heightN k = Except.error PyErr.indexError) := by
  obtain ⟨hw, hh, hm⟩ := drawMany_state es _ d' h
  have hwid : d'.widths = (es.map Element.width).drop (es.length - memlen) := by
    rw [hw]
    show (es.foldl (fun q e => dequeAppend (Drawer.init x y memlen).memlen q e.width) []) = _
    rw [show (Drawer.init x y memlen).memlen = memlen from rfl,
      ← List.foldl_map Element.width (dequeAppend memlen) es ([] : List Nat),
      foldl_dequeAppend, List.length_map]
  have hhei : d'.heights = (es.map Element.height).drop (es.length - memlen) := by
    rw [hh]
    show (es.foldl (fun q e => dequeAppend (Drawer.init x y memlen).memlen q e.height) []) = _
    rw [show (Drawer.init x y memlen).memlen = memlen from rfl,
      ← List.foldl_map Element.height (dequeAppend memlen) es ([] : List Nat),
      foldl_dequeAppend, List.length_map]
  have hwlen : d'.widths.length = es.length - (es.length - memlen) := by
    rw [hwid]; simp
  have hhlen : d'.heights.length = es.length - (es.length - memlen) := by
    rw [hhei]; simp
  constructor
  · intro hk
    have hkw : k < d'.widths.length := by omega
    have hkh : k < d'.heights.length := by omega
    constructor
    · rw [Drawer.widthN, dif_pos hkw]
      congr 1
      have hq : d'.widths[d'.widths.length - 1 - k]? =
          some ((es.getD (es.length - 1 - k) default).width) := by
        have hn : d'.widths.length - 1 - k = es.length - (es.length - memlen) - 1 - k := by
          omega
        rw [hn, hwid, List.getElem?_drop, List.getElem?_map]
        have hb : es.length - memlen + (es.length - (es.length - memlen) - 1 - k) =
            es.length - 1 - k := by
          omega
        rw [hb, List.getElem?_eq_getElem (by omega)]
        simp [List.getD_eq_getElem?_getD,
          List.getElem?_eq_getElem (show es.length - 1 - k < es.length by omega)]
      have := List.getElem?_eq_getElem (l := d'.widths) (n := d'.widths.length - 1 - k) (by omega)
      rw [this] at hq
      rw [List.get_eq_getElem]
      exact Option.some.inj hq
    · rw [Drawer.heightN, dif_pos hkh]
      congr 1
      have hq : d'.heights[d'.heights.length - 1 - k]? =
          some ((es.getD (es.length - 1 - k) default).height) := by
        have hn : d'.heights.length - 1 - k = es.length - (es.length - memlen) - 1 - k := by
          omega
        rw [hn, hhei, List.getElem?_drop, List.getElem?_map]
        have hb : es.length - memlen + (es.length - (es.length - memlen) - 1 - k) =
            es.length - 1 - k := by
          omega
        rw [hb, List.getElem?_eq_getElem (by omega)]
        simp [List.getD_eq_getElem?_getD,
          List.getElem?_eq_getElem (show es.length - 1 - k < es.length by omega)]
      have := List.getElem?_eq_getElem (l := d'.heights) (n := d'.heights.length - 1 - k) (by omega)
      rw [this] at hq
      rw [List.get_eq_getElem]
      exact Option.some.inj hq
  · intro hk
    constructor
    · rw [Drawer.widthN, dif_neg (by omega)]
    · rw [Drawer.heightN, dif_neg (by omega)]

/-- C4 witness: drawing three elements with capacity 2 retains the last
two extents; `width(1)` / `height(1)` return the second element's. -/
theorem drawer_history_witness :
    (1 < min histElems.length 2 →
       histDrawer.widthN 1 = Except.ok ((histElems.getD (histElems.length - 1 - 1) default).width) ∧
       histDrawer.heightN 1 = Except.ok ((histElems.getD (histElems.length - 1 - 1) default).height)) ∧
    (min histElems.length 2 ≤ 1 →
       histDrawer.widthN 1 = Except.error PyErr.indexError ∧
       histDrawer.heightN 1 = Except.error PyErr.indexError) :=
  drawer_history 2 0 0 histElems histDrawer 1 (by decide)

/-- C5: `xl_set` always raises `AttributeError` and leaves the position
unchanged: the tuple assignment `self.x, self.y = self.xl2coords(rng)`
assigns to the getter-only property `x` first, which has no setter. -/
theorem drawer_xl_set_attribute_error (d : Drawer) (cell : List Nat)
    (_hv : validXlCell cell = true) :
    d.xlSet cell = (d, some PyErr.attributeError) := by
  simp [Drawer.xlSet, Drawer.setattr]

/-- C5 witness: setting the position to the valid address `"B2"`
(codes `[66, 50]`) fails with `AttributeError` and leaves `(5, 7)`. -/
theorem drawer_xl_set_attribute_error_witness :
    (Drawer.init 5 7 10).xlSet [66, 50] =
      (Drawer.init 5 7 10, some PyErr.attributeError) :=
  drawer_xl_set_attribute_error (Drawer.init 5 7 10) [66, 50] (by decide)

/-- Appending one letter multiplies the accumulated column value by 26
and adds the letter's rank. -/
theorem lettersVal_append (l : List Nat) (c : Nat) :
    lettersVal (l ++ [c]) = lettersVal l * 26 + (c - 64) := by
  unfold lettersVal
  rw [List.foldl_append]
  rfl

/-- Appending one digit multiplies the accumulated row value by 10 and
adds the digit. -/
theorem digitsVal_append (l : List Nat) (c : Nat) :
    digitsVal (l ++ [c]) = digitsVal l * 10 + (c - 48) := by
  unfold digitsVal
  rw [List.foldl_append]
  rfl

/-- Parsing the bijective base-26 column name recovers the 1-based
column number. -/
theorem xlColNameAux_val : ∀ (fuel n : Nat), n ≤ fuel →
    lettersVal (xlColNameAux fuel n) = n := by
  intro fuel
  induction fuel with
  | zero =>
      intro n hn
      have h0 : n = 0 := Nat.le_zero.1 hn
      subst h0
      rfl
  | succ fuel ih =>
      intro n hn
      cases n with
      | zero => rfl
      | succ m =>
          show lettersVal
            (xlColNameAux fuel
                ((m + 1 - (if (m + 1) % 26 = 0 then 26 else (m + 1) % 26)) / 26)
              ++ [64 + (if (m + 1) % 26 = 0 then 26 else (m + 1) % 26)]) = m + 1
          set r := if (m + 1) % 26 = 0 then 26 else (m + 1) % 26 with hrdef
          have hrb : 1 ≤ r ∧ r ≤ 26 ∧ r ≤ m + 1 ∧ (m + 1 - r) % 26 = 0 := by
            rw [hrdef]
            by_cases h26 : (m + 1) % 26 = 0 <;> simp only [h26, if_true, if_false] <;> omega
          have hfuel : (m + 1 - r) / 26 ≤ fuel := by omega
          rw [lettersVal_append, ih _ hfuel]
          omega

/-- Every code in a column name is an upper-case letter code. -/
theorem xlColNameAux_codes : ∀ (fuel n : Nat), ∀ c ∈ xlColNameAux fuel n,
    65 ≤ c ∧ c ≤ 90 := by
  intro fuel
  induction fuel with
  | zero =>
      intro n c hc
      simp [xlColNameAux] at hc
  | succ fuel ih =>
      intro n c hc
      cases n with
      | zero => simp [xlColNameAux] at hc
      | succ m =>
          rw [show xlColNameAux (fuel + 1) (m + 1) =
              xlColNameAux fuel
                  ((m + 1 - (if (m + 1) % 26 = 0 then 26 else (m + 1) % 26)) / 26)
                ++ [64 + (if (m + 1) % 26 = 0 then 26 else (m + 1) % 26)] from rfl] at hc
          rcases List.mem_append.1 hc with h | h
          · exact ih _ c h
          · rw [List.mem_singleton] at h
            subst h
            by_cases h26 : (m + 1) % 26 = 0 <;> simp only [h26, if_true, if_false] <;>
              constructor <;> omega

/-- Parsing the decimal digits recovers the number. -/
theorem natDigitsAux_val : ∀ (fuel n : Nat), n ≤ fuel →
    digitsVal (natDigitsAux fuel n) = n := by
  intro fuel
  induction fuel with
  | zero =>
      intro n hn
      have h0 : n = 0 := Nat.le_zero.1 hn
      subst h0
      rfl
  | succ fuel ih =>
      intro n hn
      cases n with
      | zero => rfl
      | succ m =>
          show digitsVal (natDigitsAux fuel ((m + 1) / 10) ++ [48 + (m + 1) % 10]) = m + 1
          have hfuel : (m + 1) / 10 ≤ fuel := by omega
          rw [digitsVal_append, ih _ hfuel]
          omega

/-- Every code in a row name is a decimal digit code. -/
theorem natDigitsAux_codes : ∀ (fuel n : Nat), ∀ c ∈ natDigitsAux fuel n,
    48 ≤ c ∧ c ≤ 57 := by
  intro fuel
  induction fuel with
  | zero =>
      intro n c hc
      simp [natDigitsAux] at hc
  | succ fuel ih =>
      intro n c hc
      cases n with
      | zero => simp [natDigitsAux] at hc
      | succ m =>
          rw [show natDigitsAux (fuel + 1) (m + 1) =
              natDigitsAux fuel ((m + 1) / 10) ++ [48 + (m + 1) % 10] from rfl] at hc
          rcases List.mem_append.1 hc with h | h
          · exact ih _ c h
          · rw [List.mem_singleton] at h
            subst h
            constructor <;> omega

/-- A row name is never empty. -/
theorem xlRowName_ne_nil (row : Nat) : xlRowName row ≠ [] := by
  unfold xlRowName
  show natDigitsAux (row + 1) (row + 1) ≠ []
  cases row with
  | zero => simp [natDigitsAux]
  | succ m =>
      show natDigitsAux (m + 1) ((m + 2) / 10) ++ [48 + (m + 2) % 10] ≠ []
      simp

/-- `takeWhile`/`dropWhile` split a concatenation exactly at the
boundary where the predicate flips from all-true to all-false. -/
theorem takeWhile_dropWhile_append {p : Nat → Bool} : ∀ (l₁ l₂ : List Nat),
    (∀ c ∈ l₁, p c = true) → (∀ c ∈ l₂, p c = false) →
    (l₁ ++ l₂).takeWhile p = l₁ ∧ (l₁ ++ l₂).dropWhile p = l₂ := by
  intro l₁
  induction l₁ with
  | nil =>
      intro l₂ h1 h2
      constructor
      · cases l₂ with
        | nil => rfl
        | cons c cs => simp [List.takeWhile_cons, h2 c (List.mem_cons_self c cs)]
      · cases l₂ with
        | nil => rfl
        | cons c cs => simp [List.dropWhile_cons, h2 c (List.mem_cons_self c cs)]
  | cons a l₁ ih =>
      intro l₂ h1 h2
      have hpa : p a = true := h1 a (List.mem_cons_self _ _)
      obtain ⟨ht, hd⟩ := ih l₂ (fun c hc => h1 c (List.mem_cons_of_mem _ hc)) h2
      constructor
      · simp [List.takeWhile_cons, hpa, ht]
      · simp [List.dropWhile_cons, hpa, hd]

/-- C9: converting a nonnegative position to the A1-style address
notation and back is the identity: `xl2coords (xl_position()) = (x, y)`
for a drawer at `(x, y)`. -/
theorem xl_position_roundtrip (x y memlen : Nat) :
    Drawer.xl2coords ((Drawer.init x y memlen).xlPosition 0 0) = (x, y) := by
  have hpos : (Drawer.init x y memlen).xlPosition 0 0 = xlRowcolToCell x y := by
    simp [Drawer.xlPosition, Drawer.init]
  rw [hpos]
  unfold Drawer.xl2coords xlCellToRowcol xlRowcolToCell
  have hlet : ∀ c ∈ xlColName y, isUpperCode c = true := by
    intro c hc
    obtain ⟨h1, h2⟩ := xlColNameAux_codes (y + 1) (y + 1) c hc
    simp [isUpperCode]
    omega
  have hdig : ∀ c ∈ xlRowName x, isUpperCode c = false := by
    intro c hc
    obtain ⟨h1, h2⟩ := natDigitsAux_codes (x + 1) (x + 1) c hc
    simp [isUpperCode]
    omega
  obtain ⟨ht, hd⟩ := takeWhile_dropWhile_append (xlColName y) (xlRowName x) hlet hdig
  rw [ht, hd]
  show (digitsVal (xlRowName x) - 1, lettersVal (xlColName y) - 1) = (x, y)
  have hc : lettersVal (xlColName y) = y + 1 :=
    xlColNameAux_val (y + 1) (y + 1) (Nat.le_refl _)
  have hr : digitsVal (xlRowName x) = x + 1 :=
    natDigitsAux_val (x + 1) (x + 1) (Nat.le_refl _)
  rw [hc, hr]
  simp

/-- The horizontal member loop, when it completes without a member
raising: every member keeps the starting row, the `i`-th member is
drawn `w_0 + ... + w_{i-1}` columns past the start, and the final
column is the start plus the total width. -/
theorem drawRun_horizontal (es : List Element) : ∀ (x y : Int) (r : List Placement × Int × Int),
    drawRun true es x y = Except.ok r →
    r.2 = (x, y + ((es.map Element.width).sum : Int)) ∧
    (∀ p ∈ r.1, p.x = x) ∧
    r.1.length = es.length ∧
    ∀ i, i < es.length →
      r.1.getD i default =
        ⟨x, y + (((es.map Element.width).take i).sum : Int), es.getD i default⟩ := by
  induction es with
  | nil =>
      intro x y r hok
      simp only [drawRun] at hok
      cases hok
      refine ⟨by simp, by simp, by simp, ?_⟩
      intro i hi
      exact absurd hi (by simp)
  | cons e es ih =>
      intro x y r hok
      simp only [drawRun, if_true] at hok
      cases hed : e.draw x y with
      | error er =>
          rw [hed] at hok
          cases hok
      | ok acts =>
          rw [hed] at hok
          cases hrun : drawRun true es x (y + (e.width : Int)) with
          | error er =>
              rw [hrun] at hok
              cases hok
          | ok r' =>
              rw [hrun] at hok
              cases hok
              obtain ⟨ha, hb, hc, hd⟩ := ih x (y + (e.width : Int)) r' hrun
              refine ⟨?_, ?_, ?_, ?_⟩
              · show r'.2 = (x, y + (((e :: es).map Element.width).sum : Int))
                rw [ha]
                have hsum : ((e :: es).map Element.width).sum =
                    e.width + (es.map Element.width).sum := by
                  simp
                rw [hsum]
                congr 1
                push_cast
                ring
              · intro p hp
                rcases List.mem_cons.1 hp with h | h
                · subst h; rfl
                · exact hb p h
              · simp [hc]
              · intro i hi
                cases i with
                | zero => simp
                | succ n =>
                    rw [List.getD_cons_succ, List.getD_cons_succ,
                      hd n (by simpa using Nat.lt_of_succ_lt_succ hi)]
                    have : y + (e.width : Int) + (((es.map Element.width).take n).sum : Int) =
                        y + ((((e :: es).map Element.width).take (n + 1)).sum : Int) := by
                      simp [List.take_succ_cons]
                      ring
                    rw [this]

/-- C7: when drawing a horizontal series at `(x, y)` completes without
a member's draw raising, the row `x` is kept for the name and every
member draw; member `i` is drawn at column
`y + (name width, if drawn) + w_0 + ... + w_{i-1}`; the final column is
`y` advanced by the total member width plus the name's width if it was
drawn, and the final row is `x`. -/
theorem series_draw_horizontal (s : Series) (x y : Int) (dn : Bool)
    (res : List Placement × Int × Int)
    (hh : s.horizontal = true) (hok : s.draw x y dn = Except.ok res) :
    res.2.1 = x ∧
    (∀ p ∈ res.1, p.x = x) ∧
    res.2.2 =
      y + (s.nameWidth dn : Int) + ((s.elements.map Element.width).sum : Int) ∧
    res.1.length = s.nameCount dn + s.elements.length ∧
    ∀ i, i < s.elements.length →
      res.1.getD (s.nameCount dn + i) default =
        ⟨x, y + (s.nameWidth dn : Int) + (((s.elements.map Element.width).take i).sum : Int),
          s.elements.getD i default⟩ := by
  cases hname : s.name with
  | none =>
      have hdef : s.draw x y dn = drawRun true s.elements x y := by
        cases dn <;> simp [Series.draw, hh, hname]
      rw [hdef] at hok
      have hnw : s.nameWidth dn = 0 := by cases dn <;> simp [Series.nameWidth, hname]
      have hnc : s.nameCount dn = 0 := by cases dn <;> simp [Series.nameCount, hname]
      obtain ⟨ha, hb, hc, hd⟩ := drawRun_horizontal s.elements x y res hok
      rw [hnw, hnc]
      refine ⟨by rw [ha], hb, by rw [ha]; push_cast; ring, by simpa using hc, ?_⟩
      intro i hi
      simpa using hd i hi
  | some nm =>
      cases dn with
      | false =>
          have hdef : s.draw x y false = drawRun true s.elements x y := by
            simp [Series.draw, hh, hname]
          rw [hdef] at hok
          have hnw : s.nameWidth false = 0 := by simp [Series.nameWidth, hname]
          have hnc : s.nameCount false = 0 := by simp [Series.nameCount, hname]
          obtain ⟨ha, hb, hc, hd⟩ := drawRun_horizontal s.elements x y res hok
          rw [hnw, hnc]
          refine ⟨by rw [ha], hb, by rw [ha]; push_cast; ring, by simpa using hc, ?_⟩
          intro i hi
          simpa using hd i hi
      | true =>
          simp only [Series.draw, hh, if_true, hname] at hok
          have hnw : s.nameWidth true = nm.width := by simp [Series.nameWidth, hname]
          have hnc : s.nameCount true = 1 := by simp [Series.nameCount, hname]
          cases hnd : nm.draw x y with
          | error er =>
              rw [hnd] at hok
              cases hok
          | ok acts =>
              rw [hnd] at hok
              cases hrun : drawRun true s.elements x (y + (nm.width : Int)) with
              | error er =>
                  rw [hrun] at hok
                  cases hok
              | ok r' =>
                  rw [hrun] at hok
                  cases hok
                  obtain ⟨ha, hb, hc, hd⟩ := drawRun_horizontal s.elements x
                    (y + (nm.width : Int)) r' hrun
                  rw [hnw, hnc]
                  refine ⟨?_, ?_, ?_, ?_, ?_⟩
                  · show r'.2.1 = x
                    rw [ha]
                  · intro p hp
                    rcases List.mem_cons.1 hp with h | h
                    · subst h; rfl
                    · exact hb p h
                  · show r'.2.2 = y + (nm.width : Int) + ((s.elements.map Element.width).sum : Int)
                    rw [ha]
                  · simp [hc, Nat.add_comm]
                  · intro i hi
                    have h1 : 1 + i = i + 1 := Nat.add_comm 1 i
                    rw [h1, List.getD_cons_succ, hd i hi]

/-- C7 witness: the concrete horizontal series `seriesH` drawn at the
origin with its name, whose draw succeeds with result `seriesHRes`. -/
theorem series_draw_horizontal_witness :
    seriesHRes.2.1 = 0 ∧
    (∀ p ∈ seriesHRes.1, p.x = 0) ∧
    seriesHRes.2.2 =
      0 + (seriesH.nameWidth true : Int) + ((seriesH.elements.map Element.width).sum : Int) ∧
    seriesHRes.1.length = seriesH.nameCount true + seriesH.elements.length ∧
    ∀ i, i < seriesH.elements.length →
      seriesHRes.1.getD (seriesH.nameCount true + i) default =
        ⟨0, 0 + (seriesH.nameWidth true : Int) +
            (((seriesH.elements.map Element.width).take i).sum : Int),
          seriesH.elements.getD i default⟩ :=
  series_draw_horizontal seriesH 0 0 true seriesHRes rfl (by decide)

/-- Every member of a list is at most the max-fold over it. -/
theorem le_foldl_max (l : List Nat) : ∀ (b : Nat),
    b ≤ l.foldl max b ∧ ∀ a ∈ l, a ≤ l.foldl max b := by
  induction l with
  | nil => intro b; exact ⟨Nat.le_refl b, by intro a ha; exact absurd ha (List.not_mem_nil a)⟩
  | cons c l ih =>
      intro b
      obtain ⟨h1, h2⟩ := ih (max b c)
      refine ⟨Nat.le_trans (Nat.le_max_left b c) h1, ?_⟩
      intro a ha
      rcases List.mem_cons.1 ha with h | h
      · rw [h]
        exact Nat.le_trans (Nat.le_max_right b c) h1
      · exact h2 a h
/-- The max-fold is either the seed or a member. -/
theorem foldl_max_mem (l : List Nat) : ∀ (b : Nat),
    l.foldl max b = b ∨ l.foldl max b ∈ l := by
  induction l with
  | nil => intro b; exact Or.inl rfl
  | cons c l ih =>
      intro b
      rcases ih (max b c) with h | h
      · rcases max_choice b c with hm | hm
        · rw [List.foldl_cons, h, hm]
          exact Or.inl rfl
        · rw [List.foldl_cons, h, hm]
          exact Or.inr (List.mem_cons_self _ _)
      · exact Or.inr (List.mem_cons_of_mem _ h)

/-- `pdMax` of a nonempty list of naturals is a member and an upper
bound. -/
theorem pdMax_spec (l : List Nat) (hne : l ≠ []) :
    pdMax l ∈ l ∧ ∀ a ∈ l, a ≤ pdMax l := by
  constructor
  · cases l with
    | nil => exact absurd rfl hne
    | cons c t =>
        have : pdMax (c :: t) = t.foldl max c := by
          simp [pdMax, List.foldl_cons, Nat.zero_max]
        rw [this]
        rcases foldl_max_mem t c with h | h
        · rw [h]; exact List.mem_cons_self _ _
        · exact List.mem_cons_of_mem _ h
  · intro a ha
    exact (le_foldl_max l 0).2 a ha

/-- C8: the frame's derived `width` is the maximum over rows of the sum
of the row's element widths, and its derived `height` is the maximum
over columns of the sum of the column's element heights: each row (resp.
column) sum is bounded by it and some row (resp. column) attains it. -/
theorem dataframe_width_height (df : DataFrame) (ncols : Nat)
    (hne : df.rows ≠ []) (hrect : ∀ r ∈ df.rows, r.length = ncols) (hc : 0 < ncols) :
    (∀ r ∈ df.rows, (r.map Element.width).sum ≤ df.width) ∧
    (∃ r ∈ df.rows, df.width = (r.map Element.width).sum) ∧
    (∀ j, j < ncols → ((colOf df.rows j).map Element.height).sum ≤ df.height) ∧
    (∃ j, j < ncols ∧ df.height = ((colOf df.rows j).map Element.height).sum) := by
  have hnc : df.ncols = ncols := by
    cases hrows : df.rows with
    | nil => exact absurd hrows hne
    | cons r t =>
        have : r ∈ df.rows := by rw [hrows]; exact List.mem_cons_self _ _
        have hr := hrect r this
        simp [DataFrame.ncols, hrows, hr]
  have hwne : df.rows.map (fun r => (r.map Element.width).sum) ≠ [] := by
    simpa using hne
  obtain ⟨hwmem, hwub⟩ := pdMax_spec (df.rows.map (fun r => (r.map Element.width).sum)) hwne
  have hhne : (List.range df.ncols).map
      (fun j => ((colOf df.rows j).map Element.height).sum) ≠ [] := by
    simp [hnc]
    omega
  obtain ⟨hhmem, hhub⟩ := pdMax_spec _ hhne
  refine ⟨?_, ?_, ?_, ?_⟩
  · intro r hr
    exact hwub _ (List.mem_map.2 ⟨r, hr, rfl⟩)
  · obtain ⟨r, hr, heq⟩ := List.mem_map.1 hwmem
    exact ⟨r, hr, heq.symm⟩
  · intro j hj
    apply hhub
    apply List.mem_map.2
    exact ⟨j, by simpa [hnc] using hj, rfl⟩
  · obtain ⟨j, hj, heq⟩ := List.mem_map.1 hhmem
    exact ⟨j, by simpa [hnc] using List.mem_range.1 hj, heq.symm⟩

/-- C8 witness: the 2×2 frame `dfW`. -/
theorem dataframe_width_height_witness :
    (∀ r ∈ dfW.rows, (r.map Element.width).sum ≤ dfW.width) ∧
    (∃ r ∈ dfW.rows, dfW.width = (r.map Element.width).sum) ∧
    (∀ j, j < 2 → ((colOf dfW.rows j).map Element.height).sum ≤ dfW.height) ∧
    (∃ j, j < 2 ∧ dfW.height = ((colOf dfW.rows j).map Element.height).sum) :=
  dataframe_width_height dfW 2 (by decide) (by decide) (by decide)

/-- C2 (code evaluated at the failing input): for a dictionary with
`hspace = 0` whose single entry has a key of width 2, `Dictionary.draw`
draws the value at column `y + hspace + 1 = 1` — inside the key's merged
two-column span — not at `y + hspace + key_width = 2`; yet the derived
`Dictionary.width` counts `key_width + value_width + hspace = 3`,
assuming the value sits past the key's full width. -/
theorem dictionary_value_column_bug :
    dictWideKey.draw 0 0 = Except.ok
      [⟨0, 0, { value := PyVal.str "k", width := 2 }⟩,
       ⟨0, 1, { value := PyVal.str "v" }⟩] ∧
    ((1 : Int) ≠ 0 + (dictWideKey.hspace : Int) +
      (({ value := PyVal.str "k", width := 2 } : Element).width : Int)) ∧
    dictWideKey.width = 3 := by
  refine ⟨by decide, by decide, by decide⟩

/-- The marker is a Boolean prefix of itself followed by anything. -/
theorem isPrefixOf_self_append (l₁ l₂ : List Char) : l₁.isPrefixOf (l₁ ++ l₂) = true := by
  induction l₁ with
  | nil => cases l₂ <;> rfl
  | cons a l ih => simp [List.isPrefixOf, ih]

/-- A string starting with the literal marker matches the marker
pattern. -/
theorem hasEvalMarker_append (t : String) : hasEvalMarker (evalMarker ++ t) = true := by
  unfold hasEvalMarker
  rw [String.data_append]
  exact isPrefixOf_self_append _ _

/-- Stripping the marker from a marked string leaves the payload. -/
theorem stripMarker_append (t : String) : stripMarker (evalMarker ++ t) = t := by
  unfold stripMarker
  rw [String.data_append, List.drop_left' (by rfl : (evalMarker.data).length = 6)]

/-- C6: a string value beginning with `@eval@` has the marker stripped
and the remainder evaluated against the context at draw time — in
particular `"@eval@1+1"` with an empty context resolves to the integer
`2`, and drawing `dictEval` writes the value `2` — while any value not
matching the marker (a string without the marker, an integer, `None`)
passes through unchanged. -/
theorem dictionary_eval_marker (ctx : List (String × PyVal)) (s : String)
    (hs : hasEvalMarker s = false) :
    processValue [] (PyVal.str "@eval@1+1") = Except.ok (PyVal.int 2) ∧
    (∀ t : String, processValue ctx (PyVal.str (evalMarker ++ t)) = pyEval ctx t) ∧
    processValue ctx (PyVal.str s) = Except.ok (PyVal.str s) ∧
    (∀ n : Int, processValue ctx (PyVal.int n) = Except.ok (PyVal.int n)) ∧
    processValue ctx PyVal.none = Except.ok PyVal.none ∧
    dictEval.draw 0 0 = Except.ok
      [⟨0, 0, { value := PyVal.str "k" }⟩, ⟨0, 2, { value := PyVal.int 2 }⟩] ∧
    dictEvalList.draw 0 0 = Except.ok
      [⟨0, 0, { value := PyVal.int 5 }⟩,
       ⟨0, 2, { value := PyVal.int 9 }⟩,
       ⟨1, 2, { value := PyVal.str "plain" }⟩] := by
  refine ⟨by decide, ?_, ?_, fun n => rfl, rfl, by decide, by decide⟩
  · intro t
    simp [processValue, hasEvalMarker_append, stripMarker_append]
  · simp [processValue, hs]

/-- C6 witness: the unmarked string `"plain"` passes through unchanged,
with the marked example and the draw of `dictEval` instantiated at the
empty context. -/
theorem dictionary_eval_marker_witness :
    processValue [] (PyVal.str "@eval@1+1") = Except.ok (PyVal.int 2) ∧
    (∀ t : String, processValue [] (PyVal.str (evalMarker ++ t)) = pyEval [] t) ∧
    processValue [] (PyVal.str "plain") = Except.ok (PyVal.str "plain") ∧
    (∀ n : Int, processValue [] (PyVal.int n) = Except.ok (PyVal.int n)) ∧
    processValue [] PyVal.none = Except.ok PyVal.none ∧
    dictEval.draw 0 0 = Except.ok
      [⟨0, 0, { value := PyVal.str "k" }⟩, ⟨0, 2, { value := PyVal.int 2 }⟩] ∧
    dictEvalList.draw 0 0 = Except.ok
      [⟨0, 0, { value := PyVal.int 5 }⟩,
       ⟨0, 2, { value := PyVal.int 9 }⟩,
       ⟨1, 2, { value := PyVal.str "plain" }⟩] :=
  dictionary_eval_marker [] "plain" (by decide)

end Xlsxpandas
